import Mathlib

/-!
Verification of `python-logging-tools` (modules `logging_tools/common.py` and
`logging_tools/json.py`) against its natural-language specification.

Python dictionaries are modelled as insertion-ordered association lists
(`Dict V`), Python exceptions as the `PyErr` type, dynamically typed values
(where a claim needs them) as `PyVal`, and possibly non-terminating loops with
an explicit fuel parameter where `Option.none` means the loop has not finished
within the given fuel.
-/

/-- Python exception values raised by the modelled code paths. -/
inductive PyErr where
  | typeError (msg : String)
  | valueError (msg : String)
  | attributeError (msg : String)
  | zeroDivisionError
  | custom (msg : String)
deriving DecidableEq, Repr

/-- Rendering of an exception used by the `%r`-style fallback strings in
`JsonLogFormatter.format`. -/
def PyErr.reprStr : PyErr → String
  | .typeError m => "TypeError(" ++ m ++ ")"
  | .valueError m => "ValueError(" ++ m ++ ")"
  | .attributeError m => "AttributeError(" ++ m ++ ")"
  | .zeroDivisionError => "ZeroDivisionError()"
  | .custom m => "Exception(" ++ m ++ ")"

/-- Dynamically typed Python values, with just the constructors the claims
need: integers, strings, `None` and string-keyed dictionaries. -/
inductive PyVal where
  | int : Int → PyVal
  | str : String → PyVal
  | noneV : PyVal
  | dict : List (String × PyVal) → PyVal

/-- A Python `dict` with string keys: an insertion-ordered association list
whose keys are unique (uniqueness is an invariant of the operations below,
assumed as a hypothesis only where a claim needs it). -/
abbrev Dict (V : Type) := List (String × V)

/-- `d[k]` lookup (first binding wins; bindings are unique in a real dict). -/
def dlookup {V : Type} : Dict V → String → Option V
  | [], _ => Option.none
  | (k', v) :: rest, k => if k' = k then some v else dlookup rest k

/-- Python `k in d`. -/
def dcontains {V : Type} (d : Dict V) (k : String) : Bool :=
  (dlookup d k).isSome

/-- Python `d[k] = v`: replaces the value in place if `k` is present
(preserving the key's position), otherwise appends the new binding at the
end, exactly like CPython's insertion-ordered dictionaries. -/
def dinsert {V : Type} : Dict V → String → V → Dict V
  | [], k, v => [(k, v)]
  | (k', v') :: rest, k, v =>
    if k' = k then (k, v) :: rest else (k', v') :: dinsert rest k v

/-- Python `d.pop(k, None)`: removes the first binding of `k` if present
(the only one, in a real dict). -/
def dpop {V : Type} : Dict V → String → Dict V
  | [], _ => []
  | (k', v') :: rest, k => if k' = k then rest else (k', v') :: dpop rest k

/-- Python `d.update(attrs)`: inserts each binding of `attrs` in order. -/
def pyUpdate {V : Type} (d attrs : Dict V) : Dict V :=
  attrs.foldl (fun acc kv => dinsert acc kv.1 kv.2) d

-- ### `to_base` (logging_tools/common.py)

/-- The `while number != 0` loop of `to_base`.  One fuel unit is spent per
iteration; `Option.none` means the loop did not finish within `fuel`
iterations (for a well-formed alphabet the later lemmas show the loop always
finishes).  `divmod(number, len(alphabet))` raises `ZeroDivisionError` on an
empty alphabet, and `in_base.append(alphabet[i])` appends the digit for the
least-significant position first. -/
def toBaseLoop (alphabet : List Char) : Nat → Nat → List Char → Option (Except PyErr (List Char))
  | fuel, number, in_base =>
    if number = 0 then some (Except.ok in_base)
    else
      match fuel with
      | 0 => Option.none
      | fuel' + 1 =>
        if h : alphabet.length = 0 then some (Except.error PyErr.zeroDivisionError)
        else
          toBaseLoop alphabet fuel' (number / alphabet.length)
            (in_base ++ [alphabet.get ⟨number % alphabet.length,
              Nat.mod_lt _ (Nat.pos_of_ne_zero h)⟩])

/-- `to_base(number, alphabet)`.  The `isinstance(number, int)` check rejects
non-integer values with `TypeError`, negatives are rejected with
`ValueError`, zero is special-cased to the literal string `"0"`, and
otherwise the digit loop runs and the accumulated digits are reversed
(`"".join(reversed(in_base))`). -/
def to_base (fuel : Nat) (number : PyVal) (alphabet : List Char) : Option (Except PyErr String) :=
  match number with
  | .int n =>
    if n < 0 then some (Except.error (PyErr.valueError "number must be nonnegative"))
    else if n = 0 then some (Except.ok "0")
    else (toBaseLoop alphabet fuel n.toNat []).map (Except.map (fun l => String.mk l.reverse))
  | _ => some (Except.error (PyErr.typeError "number must be an integer"))

/-- The digits of `n` over `alphabet`, least-significant first: the
mathematical content of the `to_base` loop, used to state and prove its
round-trip property. -/
def digitsLSD (alphabet : List Char) (n : Nat) : List Char :=
  if h : n = 0 ∨ alphabet.length < 2 then []
  else
    alphabet.get ⟨n % alphabet.length, Nat.mod_lt _ (by omega)⟩ ::
      digitsLSD alphabet (n / alphabet.length)
termination_by n
decreasing_by
  exact Nat.div_lt_self (by omega) (by omega)

/-- The position of digit character `c` in `alphabet` (first occurrence). -/
def digitIndex : List Char → Char → Option Nat
  | [], _ => Option.none
  | a :: rest, c => if a = c then some 0 else (digitIndex rest c).map (· + 1)

/-- Modelled from the spec: "decoding the base-`b` encoding of `n` back to an
integer".  The repository contains no decoder, so this is the standard
most-significant-digit-first Horner evaluation of a numeral over `alphabet`,
failing on characters outside the alphabet. -/
def fromBase (alphabet : List Char) : List Char → Nat → Option Nat
  | [], acc => some acc
  | c :: rest, acc =>
    match digitIndex alphabet c with
    | Option.none => Option.none
    | some i => fromBase alphabet rest (acc * alphabet.length + i)

-- ### `safemerge` (logging_tools/json.py)

/-- The set-membership test of the `while` loop of `safemerge`:
`key in target or (reserved is not None and key in reserved)`. -/
def keyCollides {V : Type} (target : Dict V) (reserved : Option (List String)) (k : String) : Bool :=
  dcontains target k ||
    (match reserved with
     | some r => decide (k ∈ r)
     | Option.none => false)

/-- The `reserved` set as a list (empty when `None`), used only to measure
the termination of the renaming loop. -/
def reservedPool (reserved : Option (List String)) : List String :=
  match reserved with
  | some r => r
  | Option.none => []

/-- One fuelled round of the renaming loop of `safemerge` (see `resolveKey`
for why the fuel is enough to make this the source's unbounded loop). -/
def resolveKeyFuel {V : Type} (target : Dict V) (reserved : Option (List String)) :
    Nat → String → String
  | 0, k => k
  | fuel + 1, k =>
    if keyCollides target reserved k then resolveKeyFuel target reserved fuel (k ++ "_")
    else k

/-- One more than the number of names the renaming loop can still collide
with. -/
def resolveKeyBound {V : Type} (target : Dict V) (reserved : Option (List String)) : Nat :=
  target.length + (reservedPool reserved).length + 1

/-- The `while key in target or key in reserved: key = "%s_" % (key,)` loop
of `safemerge`: appends trailing underscores until the key collides with
neither the target nor the reserved set.  Each collision is with one of the
finitely many names of the target and the reserved set, and the candidate
strictly lengthens each round, so a name can be collided with at most once:
`resolveKeyBound` rounds always reach a non-colliding key
(`keyCollides_resolveKey` below), making this fuelled recursion exactly the
source's unbounded loop. -/
def resolveKey {V : Type} (target : Dict V) (reserved : Option (List String)) (k : String) : String :=
  resolveKeyFuel target reserved (resolveKeyBound target reserved) k

/-- The `skip is not None and key in skip` test of `safemerge`. -/
def skipContains (skip : Option (List String)) (k : String) : Bool :=
  match skip with
  | some s => decide (k ∈ s)
  | Option.none => false

/-- `safemerge(target, input, reserved, skip)`: for each key of `input` in
order, skipped keys are dropped, every other key is first renamed past any
collision with `target` or `reserved` and then assigned into `target`. -/
def safemerge {V : Type} (target input : Dict V) (reserved : Option (List String))
    (skip : Option (List String)) : Dict V :=
  input.foldl
    (fun tgt kv =>
      if skipContains skip kv.1 then tgt
      else dinsert tgt (resolveKey tgt reserved kv.1) kv.2)
    target

/-- `k` with `m` trailing underscores appended. -/
def appendUnderscores (k : String) : Nat → String
  | 0 => k
  | m + 1 => appendUnderscores (k ++ "_") m


-- ### `JsonLogFormatter` (logging_tools/json.py)

/-- The natural `LogRecord` attributes skipped by the `*extra` merge
(`LOGGING_RECORD_ATTRS` in logging_tools/json.py). -/
def LOGGING_RECORD_ATTRS : List String :=
  ["args", "asctime", "created", "exc_info", "exc_text", "filename",
   "funcName", "levelname", "levelno", "lineno", "module", "msecs",
   "message", "msg", "name", "pathname", "process", "processName",
   "relativeCreated", "thread", "threadName"]

/-- `self.fields`, the fixed ordered field list set in
`JsonLogFormatter.__init__`. -/
def formatterFields : List String :=
  ["asctime", "levelname", "levelno", "pid", "threadName", "thread",
   "name", "message", "*exc", "*context", "*extra"]

/-- `self._reserved_fields = set(self.fields).union(LOGGING_RECORD_ATTRS)`;
only membership in the set matters, so a concatenated list models it. -/
def reserved_fields : List String :=
  formatterFields ++ LOGGING_RECORD_ATTRS

/-- The configuration state of a `JsonLogFormatter` instance.

`get_environ` is `None` or the mapping the configured nullary supplier
returns; `json_dumps` is the configured serializer (which may raise);
`formatTime_result` and `pid` stand for `self.formatTime(record, datefmt)`
and `os.getpid()`, operations of the runtime rather than of this repository.
The source attribute `prefix` is spelled `prefix_str` here because `prefix`
is a Lean keyword. -/
structure JsonLogFormatter where
  base_fields : Dict PyVal
  get_environ : Option (Dict PyVal)
  context_from_environ : Option (List (String × String))
  prefix_str : String
  json_dumps : Dict PyVal → Except PyErr String
  formatTime_result : PyVal
  pid : PyVal

/-- One `logging.LogRecord` as `format` consumes it: its `__dict__` (read by
the `*extra` merge and by the plain-field branch), its `msg` when that is a
dict (`None` here means `msg` is not a dict, so `record.getMessage()` is
used, whose rendering may raise), the truthiness of `exc_info`, and the two
strings `traceback.format_exception_only` / `traceback.format_exception`
produce for it. -/
structure LogRecord where
  rdict : Dict PyVal
  msg_dict : Option (Dict PyVal)
  getMessage : Except PyErr PyVal
  exc_info : Bool
  exc_message : PyVal
  exc_traceback : PyVal

/-- The environment-derived half of the `*context` branch: for each
`(field, env_field)` of `context_from_environ.items()`, in order, copy
`environ[env_field]` to `context[field]` when `env_field in environ`. -/
def environContext {V : Type} (environ : Dict V) (cfe : List (String × String)) : Dict V :=
  cfe.foldl
    (fun ctx fe =>
      match dlookup environ fe.2 with
      | some v => dinsert ctx fe.1 v
      | Option.none => ctx)
    []

/-- The `*context` branch of `format_obj` up to the final merge into the
record object: consult `get_environ` if configured (note that with a
supplier configured but `context_from_environ` left `None`, the source
evaluates `None.items()` and raises `AttributeError`), then merge the
Scoped Context Store contents on top with `safemerge`. -/
def build_context {V : Type} (get_environ : Option (Dict V))
    (context_from_environ : Option (List (String × String)))
    (store_items : Dict V) : Except PyErr (Dict V) :=
  match get_environ with
  | Option.none => Except.ok (safemerge [] store_items Option.none Option.none)
  | some environ =>
    match context_from_environ with
    | Option.none => Except.error (PyErr.attributeError "NoneType object has no attribute items")
    | some cfe =>
      Except.ok (safemerge (environContext environ cfe) store_items Option.none Option.none)

/-- `JsonLogFormatter.format_obj(record)`: seed with `base_fields`, then
process `self.fields` in order, branching exactly as the source's
`if`/`elif` chain does.  `store_items` is the current contents of
`GLOBAL_LOG_CONTEXT`. -/
def format_obj (fmt : JsonLogFormatter) (record : LogRecord)
    (store_items : Dict PyVal) : Except PyErr (Dict PyVal) :=
  formatterFields.foldlM
    (fun record_obj field =>
      if field = "*exc" then
        Except.ok (if record.exc_info then
          dinsert (dinsert record_obj "exc_message" record.exc_message)
            "exc_traceback" record.exc_traceback
        else record_obj)
      else if field = "*extra" then
        Except.ok (safemerge record_obj record.rdict (some reserved_fields)
          (some LOGGING_RECORD_ATTRS))
      else if field = "*context" then
        match build_context fmt.get_environ fmt.context_from_environ store_items with
        | Except.error e => Except.error e
        | Except.ok context =>
          Except.ok (safemerge record_obj [("context", PyVal.dict context)]
            Option.none Option.none)
      else if field = "asctime" then
        Except.ok (dinsert record_obj field fmt.formatTime_result)
      else if field = "message" then
        match record.msg_dict with
        | some msg => Except.ok (safemerge record_obj msg (some reserved_fields) Option.none)
        | Option.none =>
          match record.getMessage with
          | Except.error e => Except.error e
          | Except.ok m => Except.ok (dinsert record_obj field m)
      else if field = "pid" then
        Except.ok (dinsert record_obj field fmt.pid)
      else
        Except.ok (dinsert record_obj field
          (match dlookup record.rdict field with
           | some v => v
           | Option.none => PyVal.noneV)))
    fmt.base_fields

/-- `JsonLogFormatter.format(record)`.  `format_obj` runs outside the
`try`, so anything it raises propagates; only `self.json_dumps` is guarded,
with the `"(error encoding: %r) %r"` fallback and, when even that `%r` of
the record object raises, the `"(error encoding: %r)"` fallback, where the
`except Exception as e` of the inner `try` rebinds `e` to the new error.
`repr_obj` models Python's `repr` applied to the assembled object, which
calls arbitrary user `__repr__` methods and may itself raise. -/
def format (fmt : JsonLogFormatter) (record : LogRecord) (store_items : Dict PyVal)
    (repr_obj : Dict PyVal → Except PyErr String) : Except PyErr String :=
  match format_obj fmt record store_items with
  | Except.error e => Except.error e
  | Except.ok record_obj =>
    let json_str :=
      match fmt.json_dumps record_obj with
      | Except.ok s => s
      | Except.error e =>
        match repr_obj record_obj with
        | Except.ok r => "(error encoding: " ++ PyErr.reprStr e ++ ") " ++ r
        | Except.error e2 => "(error encoding: " ++ PyErr.reprStr e2 ++ ")"
    Except.ok (fmt.prefix_str ++ json_str)

-- ### `GlobalLogContext` (logging_tools/common.py)

/-- Entry half of `with_log_context`: `old_values` records, for each key of
`attrs`, `self.get(key, Undefined)` (`Option.none` standing for the
`Undefined` sentinel), then `self._items.update(attrs)` applies the
overrides. -/
def with_log_context_enter {V : Type} (items attrs : Dict V) :
    List (String × Option V) × Dict V :=
  (attrs.map (fun kv => (kv.1, dlookup items kv.1)), pyUpdate items attrs)

/-- The restore loop after the `yield`: for each recorded `(key, old_val)`,
pop the key if it was previously absent, else write the old value back. -/
def with_log_context_restore {V : Type} (items : Dict V)
    (old_values : List (String × Option V)) : Dict V :=
  old_values.foldl
    (fun it kv =>
      match kv.2 with
      | some v => dinsert it kv.1 v
      | Option.none => dpop it kv.1)
    items

/-- `GlobalLogContext.with_log_context(**attrs)` used as a context manager
around `body`.  `body` receives the store contents after the overrides are
applied and returns the contents it leaves behind together with
`Option.none` (normal completion) or `some e` (it raised `e`).  The source
generator has no `try`/`finally` around its `yield`, so when the protected
block raises, `contextlib` throws the exception into the generator at the
`yield`, the generator propagates it, and the restore loop after the
`yield` never runs. -/
def with_log_context {V E : Type} (attrs : Dict V) (body : Dict V → Dict V × Option E)
    (items : Dict V) : Dict V × Option E :=
  let entered := with_log_context_enter items attrs
  let result := body entered.2
  match result.2 with
  | Option.none => (with_log_context_restore result.1 entered.1, Option.none)
  | some e => (result.1, some e)

/-- A minimal heap of Python `dict` objects, used to distinguish returning a
reference to a live dict from returning a copy of it.  A reference is an
index into `cells`. -/
structure PyDictHeap (V : Type) where
  cells : List (Dict V)
deriving DecidableEq

/-- Dereference: the dict object a reference points at. -/
def PyDictHeap.read {V : Type} (h : PyDictHeap V) (r : Nat) : Dict V :=
  h.cells.getD r []

/-- In-place mutation of the dict object a reference points at. -/
def PyDictHeap.write {V : Type} (h : PyDictHeap V) (r : Nat) (d : Dict V) : PyDictHeap V :=
  ⟨h.cells.set r d⟩

/-- `GlobalLogContext.get_log_context(self)`: `return self._items` — the
reference to the live internal dict itself, not a copy of it.
`self_items` is the reference held in the store's `_items` attribute. -/
def GlobalLogContext.get_log_context {V : Type} (_h : PyDictHeap V) (self_items : Nat) : Nat :=
  self_items

/-- `GlobalLogContext.set(self, attr, val)`: `self._items[attr] = val`,
mutating the dict object `_items` refers to. -/
def GlobalLogContext.set {V : Type} (h : PyDictHeap V) (self_items : Nat)
    (attr : String) (val : V) : PyDictHeap V :=
  h.write self_items (dinsert (h.read self_items) attr val)

-- ### `ReadTimingStreamWrapper` (logging_tools/common.py)

/-- The mutable counters of a `ReadTimingStreamWrapper` (the wrapped stream
itself is supplied per call as the result its `read` produces). -/
structure ReadTimingStreamWrapper where
  read_byte_count : Nat
  first_read_time : Option Nat
  last_read_time : Option Nat
deriving DecidableEq

/-- `ReadTimingStreamWrapper.__init__`. -/
def ReadTimingStreamWrapper.init : ReadTimingStreamWrapper :=
  ⟨0, Option.none, Option.none⟩

/-- One call to `ReadTimingStreamWrapper.read`.  `now` models `time.time()`
and `res` the underlying `self._stream.read(...)` result: a byte buffer, or
the exception it raises.  The timestamps are updated before the underlying
read; the byte counter is incremented by `len(res)` only after a successful
read, and an underlying exception propagates unchanged (carrying the
wrapper state it leaves behind). -/
def ReadTimingStreamWrapper.read {E : Type} (w : ReadTimingStreamWrapper) (now : Nat)
    (res : Except E (List Nat)) :
    Except (E × ReadTimingStreamWrapper) (List Nat × ReadTimingStreamWrapper) :=
  let w1 : ReadTimingStreamWrapper :=
    { w with
      first_read_time := some (match w.first_read_time with
        | some t => t
        | Option.none => now),
      last_read_time := some now }
  match res with
  | Except.error e => Except.error (e, w1)
  | Except.ok buf =>
    Except.ok (buf, { w1 with read_byte_count := w1.read_byte_count + buf.length })

/-- A sequence of successful reads: each element of `calls` is the
`time.time()` value and the buffer the underlying stream returns for that
call. -/
def readManyOk (w : ReadTimingStreamWrapper) (calls : List (Nat × List Nat)) :
    ReadTimingStreamWrapper :=
  calls.foldl
    (fun w c =>
      match ReadTimingStreamWrapper.read (E := String) w c.1 (Except.ok c.2) with
      | Except.ok r => r.2
      | Except.error r => r.2)
    w

-- ### `mk_random_id` (logging_tools/common.py)

/-- `ALPHABET_36 = "0123456789abcdefghijklmnopqrstuvwxyz"`. -/
def ALPHABET_36 : List Char := "0123456789abcdefghijklmnopqrstuvwxyz".toList

/-- `to36(number) = to_base(number, ALPHABET_36)`. -/
def to36 (fuel : Nat) (number : PyVal) : Option (Except PyErr String) :=
  to_base fuel number ALPHABET_36

/-- `mk_random_id(ensure_unique)`.  Each element of `draws` supplies one
retry round's `int(time.time())` and `random.getrandbits(32)` values (the
source re-reads both on every recursive retry); running out of draws
(`Option.none`) models the unbounded retry not having finished.  The low 32
time bits are kept (`& ((1 << 32) - 1)`), shifted up and or-ed with the
random bits, and base-36 encoded; a result colliding with `ensure_unique`
triggers a retry instead of being returned. -/
def mk_random_id (fuel : Nat) (draws : List (Nat × Nat))
    (ensure_unique : Option (List String)) : Option (Except PyErr String) :=
  match draws with
  | [] => Option.none
  | (t, rb) :: rest =>
    let curtime := t &&& (2 ^ 32 - 1)
    match to36 fuel (PyVal.int (Int.ofNat ((curtime <<< 32) ||| (rb % 2 ^ 32)))) with
    | some (Except.ok res) =>
      match ensure_unique with
      | some ex =>
        if res ∈ ex then mk_random_id fuel rest ensure_unique
        else some (Except.ok res)
      | Option.none => some (Except.ok res)
    | some (Except.error e) => some (Except.error e)
    | Option.none => Option.none

-- ### Concrete instances used by witnesses and counterexamples

/-- A formatter whose configured serializer always raises, used to exercise
the fallback path of `format`. -/
def fmtW : JsonLogFormatter :=
  { base_fields := []
    get_environ := Option.none
    context_from_environ := Option.none
    prefix_str := "p:"
    json_dumps := fun _ => Except.error (PyErr.custom "boom")
    formatTime_result := PyVal.str "T"
    pid := PyVal.int 42 }

/-- A formatter configured with an environment supplier but with
`context_from_environ` left `None` (the `*context` branch then evaluates
`None.items()` and raises `AttributeError`). -/
def fmtCE : JsonLogFormatter :=
  { fmtW with get_environ := some [] }

/-- A minimal well-behaved log record: plain string message, no exception,
empty `__dict__`. -/
def recW : LogRecord :=
  { rdict := []
    msg_dict := Option.none
    getMessage := Except.ok (PyVal.str "hello")
    exc_info := false
    exc_message := PyVal.noneV
    exc_traceback := PyVal.noneV }

/-- A `repr` of the assembled record object that succeeds. -/
def reprOkW : Dict PyVal → Except PyErr String :=
  fun _ => Except.ok "OBJ"

/-- The object `format_obj fmtW recW []` assembles. -/
def objW : Dict PyVal :=
  [("asctime", PyVal.str "T"), ("levelname", PyVal.noneV), ("levelno", PyVal.noneV),
   ("pid", PyVal.int 42), ("threadName", PyVal.noneV), ("thread", PyVal.noneV),
   ("name", PyVal.noneV), ("message", PyVal.str "hello"), ("context", PyVal.dict [])]

-- ### General helper lemmas

/-- Monotonicity of `List.filter` length in the predicate. -/
theorem length_filter_le_of_imp {α : Type} {p q : α → Bool}
    (hpq : ∀ x, q x = true → p x = true) :
    ∀ l : List α, (l.filter q).length ≤ (l.filter p).length := by
  intro l
  induction l with
  | nil => simp
  | cons b t ih =>
    by_cases hq : q b = true
    · simp [List.filter, hq, hpq b hq, Nat.succ_le_succ ih]
    · have hq' : q b = false := by simpa using hq
      cases hp : p b <;> simp [List.filter, hq', hp] <;> omega

/-- Strict monotonicity of `List.filter` length: if `q` implies `p` and some
element of the list satisfies `p` but not `q`, strictly fewer elements pass
`q`. -/
theorem length_filter_lt_of_imp {α : Type} {p q : α → Bool}
    (hpq : ∀ x, q x = true → p x = true) :
    ∀ l : List α, ∀ a ∈ l, p a = true → q a = false →
      (l.filter q).length < (l.filter p).length := by
  intro l
  induction l with
  | nil => intro a ha; simp at ha
  | cons b t ih =>
    intro a ha hpa hqa
    rcases List.mem_cons.mp ha with hab | hat
    · subst hab
      simp only [List.filter, hqa, hpa]
      exact Nat.lt_succ_of_le (length_filter_le_of_imp hpq t)
    · by_cases hq : q b = true
      · simp [List.filter, hq, hpq b hq]
        exact ih a hat hpa hqa
      · have hq' : q b = false := by simpa using hq
        cases hp : p b <;> simp [List.filter, hq', hp]
        · exact ih a hat hpa hqa
        · exact Nat.lt_succ_of_lt (ih a hat hpa hqa)

/-- `dlookup` finds something exactly when the key is among the keys. -/
theorem dcontains_iff_mem_keys {V : Type} (d : Dict V) (k : String) :
    dcontains d k = true ↔ k ∈ d.map Prod.fst := by
  induction d with
  | nil => simp [dcontains, dlookup]
  | cons kv rest ih =>
    obtain ⟨k', v⟩ := kv
    by_cases h : k' = k
    · subst h
      simp [dcontains, dlookup]
    · have hstep : dcontains ((k', v) :: rest) k = dcontains rest k := by
        simp [dcontains, dlookup, h]
      rw [hstep, ih]
      simp [Ne.symm h]

theorem keyCollides_mem_pool {V : Type} {target : Dict V} {reserved : Option (List String)}
    {k : String} (h : keyCollides target reserved k = true) :
    k ∈ target.map Prod.fst ++ reservedPool reserved := by
  rcases Bool.or_eq_true_iff.mp h with h' | h'
  · exact List.mem_append_left _ ((dcontains_iff_mem_keys target k).mp h')
  · cases reserved with
    | none => simp [reservedPool] at h' ⊢
    | some r => exact List.mem_append_right _ (by simpa [reservedPool] using of_decide_eq_true h')


-- ### Helper lemmas about `Dict` operations

/-- `dinsert` rebinds the inserted key and leaves every other key alone. -/
theorem dlookup_dinsert {V : Type} (d : Dict V) (k' k : String) (v : V) :
    dlookup (dinsert d k' v) k = if k' = k then some v else dlookup d k := by
  induction d with
  | nil => simp [dinsert, dlookup]
  | cons kv rest ih =>
    obtain ⟨k0, v0⟩ := kv
    by_cases h0 : k0 = k'
    · subst h0
      by_cases h1 : k0 = k <;> simp [dinsert, dlookup, h1]
    · by_cases h1 : k0 = k
      · subst h1
        have hne : ¬ k' = k0 := fun h => h0 h.symm
        simp [dinsert, dlookup, h0, hne]
      · simp [dinsert, dlookup, h0, h1, ih]

/-- Inserting an absent key grows the dict by exactly one binding. -/
theorem length_dinsert_of_not_contains {V : Type} (d : Dict V) (k : String) (v : V)
    (h : dcontains d k = false) : (dinsert d k v).length = d.length + 1 := by
  induction d with
  | nil => simp [dinsert]
  | cons kv rest ih =>
    obtain ⟨k0, v0⟩ := kv
    simp only [dcontains, dlookup] at h
    by_cases h0 : k0 = k
    · simp [h0] at h
    · simp only [dinsert, if_neg h0, List.length_cons]
      rw [ih (by simpa [dcontains, h0] using h)]

/-- Inserting any key preserves containment of the keys already present. -/
theorem dcontains_dinsert_of_contains {V : Type} (d : Dict V) (k' k : String) (v : V)
    (h : dcontains d k = true) : dcontains (dinsert d k' v) k = true := by
  unfold dcontains at h ⊢
  rw [dlookup_dinsert]
  by_cases hk : k' = k <;> simp [hk, h]

-- ### Helper lemmas about `resolveKey` and `safemerge`

/-- With fuel exceeding the number of pool names at least as long as the
candidate, the renaming loop reaches a non-colliding key. -/
theorem keyCollides_resolveKeyFuel {V : Type} (target : Dict V)
    (reserved : Option (List String)) :
    ∀ (fuel : Nat) (k : String),
      ((target.map Prod.fst ++ reservedPool reserved).filter
        (fun s => decide (k.length ≤ s.length))).length < fuel →
      keyCollides target reserved (resolveKeyFuel target reserved fuel k) = false := by
  intro fuel
  induction fuel with
  | zero => intro k hk; omega
  | succ fuel' ih =>
    intro k hk
    by_cases hc : keyCollides target reserved k = true
    · rw [resolveKeyFuel, if_pos hc]
      apply ih
      have hpq : ∀ x : String, decide ((k ++ "_").length ≤ x.length) = true →
          decide (k.length ≤ x.length) = true := by
        intro x hx
        have hx' := of_decide_eq_true hx
        simp only [String.length_append] at hx'
        exact decide_eq_true (by omega)
      have hqk : decide ((k ++ "_").length ≤ k.length) = false := by
        have h1 : ("_" : String).length = 1 := rfl
        simp [String.length_append, h1]
      have hlt := length_filter_lt_of_imp hpq
        (target.map Prod.fst ++ reservedPool reserved) k
        (keyCollides_mem_pool hc) (decide_eq_true le_rfl) hqk
      omega
    · rw [resolveKeyFuel, if_neg hc]
      simpa using hc

/-- `resolveKey` keeps renaming until the candidate collides with neither
the target nor the reserved set, so its result never collides. -/
theorem keyCollides_resolveKey {V : Type} (target : Dict V) (reserved : Option (List String)) :
    ∀ k, keyCollides target reserved (resolveKey target reserved k) = false := by
  intro k
  apply keyCollides_resolveKeyFuel
  have hle : ((target.map Prod.fst ++ reservedPool reserved).filter
        (fun s => decide (k.length ≤ s.length))).length
      ≤ (target.map Prod.fst ++ reservedPool reserved).length :=
    List.length_filter_le _ _
  have hlen : (target.map Prod.fst ++ reservedPool reserved).length
      = target.length + (reservedPool reserved).length := by simp
  rw [resolveKeyBound]
  omega

/-- `resolveKey` never hits the target: the assigned key is always fresh. -/
theorem dcontains_resolveKey {V : Type} (target : Dict V) (reserved : Option (List String))
    (k : String) : dcontains target (resolveKey target reserved k) = false := by
  have h := keyCollides_resolveKey target reserved k
  unfold keyCollides at h
  exact (Bool.or_eq_false_iff.mp h).1

/-- `resolveKey` never lands in the reserved set. -/
theorem resolveKey_not_reserved {V : Type} (target : Dict V) (reserved : Option (List String))
    (k : String) : resolveKey target reserved k ∉ reservedPool reserved := by
  have h := keyCollides_resolveKey target reserved k
  unfold keyCollides at h
  have h2 := (Bool.or_eq_false_iff.mp h).2
  cases reserved with
  | none => simp [reservedPool]
  | some r =>
    simp only [reservedPool]
    simpa using h2

/-- Fuelled form of `resolveKey_appendUnderscores`. -/
theorem resolveKeyFuel_appendUnderscores {V : Type} (target : Dict V)
    (reserved : Option (List String)) :
    ∀ (fuel : Nat) (k : String),
      ∃ m, resolveKeyFuel target reserved fuel k = appendUnderscores k m
        ∧ (1 ≤ fuel → keyCollides target reserved k = true → 1 ≤ m) := by
  intro fuel
  induction fuel with
  | zero => intro k; exact ⟨0, rfl, fun h => absurd h (by omega)⟩
  | succ fuel' ih =>
    intro k
    by_cases hc : keyCollides target reserved k = true
    · obtain ⟨m, hm, _⟩ := ih (k ++ "_")
      refine ⟨m + 1, ?_, fun _ _ => by omega⟩
      rw [resolveKeyFuel, if_pos hc]
      exact hm
    · refine ⟨0, ?_, fun _ h => absurd h hc⟩
      rw [resolveKeyFuel, if_neg hc]
      rfl

/-- The resolved key is the original key with some number of trailing
underscores, at least one of them when the original key collided. -/
theorem resolveKey_appendUnderscores {V : Type} (target : Dict V)
    (reserved : Option (List String)) :
    ∀ k, ∃ m, resolveKey target reserved k = appendUnderscores k m
      ∧ (keyCollides target reserved k = true → 1 ≤ m) := by
  intro k
  obtain ⟨m, hm, h1⟩ := resolveKeyFuel_appendUnderscores target reserved
    (resolveKeyBound target reserved) k
  exact ⟨m, hm, h1 (by rw [resolveKeyBound]; omega)⟩

/-- Unfolding of `safemerge` one input binding at a time. -/
theorem safemerge_cons {V : Type} (target : Dict V) (kv : String × V) (rest : Dict V)
    (reserved skip : Option (List String)) :
    safemerge target (kv :: rest) reserved skip
      = safemerge
          (if skipContains skip kv.1 then target
           else dinsert target (resolveKey target reserved kv.1) kv.2)
          rest reserved skip := rfl

/-- `safemerge` preserves the binding of every key already present in the
target: pre-existing entries are never overwritten. -/
theorem dlookup_safemerge_of_contains {V : Type} (input : Dict V) :
    ∀ (target : Dict V) (reserved skip : Option (List String)) (k : String),
      dcontains target k = true →
      dlookup (safemerge target input reserved skip) k = dlookup target k := by
  induction input with
  | nil => intro target reserved skip k _; rfl
  | cons kv rest ih =>
    intro target reserved skip k hk
    rw [safemerge_cons]
    by_cases hskip : skipContains skip kv.1 = true
    · rw [if_pos hskip]
      exact ih target reserved skip k hk
    · rw [if_neg hskip]
      have hfresh : dcontains target (resolveKey target reserved kv.1) = false :=
        dcontains_resolveKey target reserved kv.1
      have hne : resolveKey target reserved kv.1 ≠ k := by
        intro he
        rw [he] at hfresh
        rw [hfresh] at hk
        exact Bool.false_ne_true hk
      have hlook : dlookup (dinsert target (resolveKey target reserved kv.1) kv.2) k
          = dlookup target k := by
        rw [dlookup_dinsert, if_neg hne]
      rw [ih _ reserved skip k (by
        rw [dcontains, hlook]
        exact hk), hlook]

/-- `safemerge` never writes to a key of the reserved set. -/
theorem dlookup_safemerge_of_reserved {V : Type} (input : Dict V) :
    ∀ (target : Dict V) (reserved skip : Option (List String)) (k : String),
      k ∈ reservedPool reserved →
      dlookup (safemerge target input reserved skip) k = dlookup target k := by
  induction input with
  | nil => intro target reserved skip k _; rfl
  | cons kv rest ih =>
    intro target reserved skip k hk
    rw [safemerge_cons]
    by_cases hskip : skipContains skip kv.1 = true
    · rw [if_pos hskip]
      exact ih target reserved skip k hk
    · rw [if_neg hskip]
      have hne : resolveKey target reserved kv.1 ≠ k := by
        intro he
        exact resolveKey_not_reserved target reserved kv.1 (he ▸ hk)
      have hlook : dlookup (dinsert target (resolveKey target reserved kv.1) kv.2) k
          = dlookup target k := by
        rw [dlookup_dinsert, if_neg hne]
      rw [ih _ reserved skip k hk, hlook]

/-- Each non-skipped input binding grows the target by exactly one entry. -/
theorem length_safemerge {V : Type} (input : Dict V) :
    ∀ (target : Dict V) (reserved skip : Option (List String)),
      (safemerge target input reserved skip).length
        = target.length + (input.filter (fun kv => !skipContains skip kv.1)).length := by
  induction input with
  | nil => intro target reserved skip; simp [safemerge]
  | cons kv rest ih =>
    intro target reserved skip
    rw [safemerge_cons]
    by_cases hskip : skipContains skip kv.1 = true
    · rw [if_pos hskip, ih]
      simp [List.filter, hskip]
    · rw [if_neg hskip, ih]
      have hw : (dinsert target (resolveKey target reserved kv.1) kv.2).length
          = target.length + 1 :=
        length_dinsert_of_not_contains _ _ _ (dcontains_resolveKey target reserved kv.1)
      rw [hw]
      have hskip' : skipContains skip kv.1 = false := by simpa using hskip
      simp [List.filter, hskip']
      omega

/-- Every non-skipped input binding survives the merge: its value is found
under the original key extended by trailing underscores, at least one of
them when the key was already taken in the original target. -/
theorem dlookup_safemerge_of_mem {V : Type} (input : Dict V) :
    ∀ (target : Dict V) (reserved skip : Option (List String)) (kv : String × V),
      kv ∈ input → skipContains skip kv.1 = false →
      ∃ m, dlookup (safemerge target input reserved skip) (appendUnderscores kv.1 m)
          = some kv.2
        ∧ (dcontains target kv.1 = true → 1 ≤ m) := by
  induction input with
  | nil => intro target reserved skip kv hmem; simp at hmem
  | cons hd rest ih =>
    intro target reserved skip kv hmem hskip
    rcases List.mem_cons.mp hmem with heq | hmem'
    · subst heq
      rw [safemerge_cons, if_neg (by simp [hskip])]
      obtain ⟨m, hm, hm1⟩ := resolveKey_appendUnderscores target reserved kv.1
      refine ⟨m, ?_, fun hc => hm1 (by unfold keyCollides; simp [hc])⟩
      have hfresh : dcontains target (resolveKey target reserved kv.1) = false :=
        dcontains_resolveKey target reserved kv.1
      have hins : dlookup (dinsert target (resolveKey target reserved kv.1) kv.2)
          (resolveKey target reserved kv.1) = some kv.2 := by
        rw [dlookup_dinsert, if_pos rfl]
      rw [← hm]
      rw [dlookup_safemerge_of_contains rest _ reserved skip _ (by
        rw [dcontains, hins]; rfl)]
      exact hins
    · rw [safemerge_cons]
      by_cases hskiphd : skipContains skip hd.1 = true
      · rw [if_pos hskiphd]
        exact ih target reserved skip kv hmem' hskip
      · rw [if_neg hskiphd]
        obtain ⟨m, hm, hm1⟩ :=
          ih (dinsert target (resolveKey target reserved hd.1) hd.2) reserved skip kv hmem' hskip
        exact ⟨m, hm, fun hc => hm1 (dcontains_dinsert_of_contains _ _ _ _ hc)⟩

-- ### Helper lemmas about `to_base`

/-- With a base of at least two, fuel equal to the number itself is enough
for the digit loop to finish, and it produces the digits of `n`
least-significant first, appended after the accumulator. -/
theorem toBaseLoop_eq_digitsLSD (alphabet : List Char) (h2 : 2 ≤ alphabet.length) :
    ∀ (fuel n : Nat) (in_base : List Char), n ≤ fuel →
      toBaseLoop alphabet fuel n in_base
        = some (Except.ok (in_base ++ digitsLSD alphabet n)) := by
  intro fuel
  induction fuel with
  | zero =>
    intro n in_base hn
    have hn0 : n = 0 := Nat.le_zero.mp hn
    subst hn0
    rw [toBaseLoop, if_pos rfl, digitsLSD]
    simp
  | succ fuel' ih =>
    intro n in_base hn
    by_cases hn0 : n = 0
    · subst hn0
      rw [toBaseLoop, if_pos rfl, digitsLSD]
      simp
    · rw [toBaseLoop, if_neg hn0]
      have hlen : ¬ alphabet.length = 0 := by omega
      rw [dif_neg hlen]
      have hdiv : n / alphabet.length < n := Nat.div_lt_self (by omega) (by omega)
      rw [ih (n / alphabet.length) _ (by omega)]
      have hd : digitsLSD alphabet n
          = alphabet.get ⟨n % alphabet.length, Nat.mod_lt _ (by omega)⟩ ::
            digitsLSD alphabet (n / alphabet.length) := by
        rw [digitsLSD]
        rw [dif_neg (by omega)]
      rw [hd]
      simp

/-- With a one-character alphabet, `divmod(number, 1)` never decreases the
number, so the loop runs out of any finite fuel once `number ≥ 1`. -/
theorem toBaseLoop_singleton_diverges (c : Char) :
    ∀ (fuel n : Nat) (in_base : List Char), 1 ≤ n →
      toBaseLoop [c] fuel n in_base = Option.none := by
  intro fuel
  induction fuel with
  | zero =>
    intro n in_base hn
    rw [toBaseLoop, if_neg (by omega)]
  | succ fuel' ih =>
    intro n in_base hn
    rw [toBaseLoop, if_neg (by omega), dif_neg (by simp)]
    have h1 : n / ([c] : List Char).length = n := by simp
    rw [h1]
    exact ih n _ hn

/-- Under distinct alphabet characters, `digitIndex` inverts indexing. -/
theorem digitIndex_get (alphabet : List Char) (hnd : alphabet.Nodup) :
    ∀ i : Fin alphabet.length, digitIndex alphabet (alphabet.get i) = some i.val := by
  induction alphabet with
  | nil => intro i; exact absurd i.isLt (by simp)
  | cons a rest ih =>
    intro i
    obtain ⟨ha, hrest⟩ := List.nodup_cons.mp hnd
    obtain ⟨iv, hi⟩ := i
    cases iv with
    | zero => simp [digitIndex]
    | succ j =>
      have hj : j < rest.length := by simpa using hi
      have hget : (a :: rest).get ⟨j + 1, hi⟩ = rest.get ⟨j, hj⟩ := rfl
      rw [hget]
      have hne : ¬ a = rest.get ⟨j, hj⟩ := by
        intro he
        exact ha (he ▸ rest.get_mem j hj)
      rw [digitIndex, if_neg hne, ih hrest ⟨j, hj⟩]
      rfl

/-- Horner evaluation distributes over list append. -/
theorem fromBase_append (alphabet : List Char) :
    ∀ (l1 l2 : List Char) (acc : Nat),
      fromBase alphabet (l1 ++ l2) acc
        = match fromBase alphabet l1 acc with
          | some a => fromBase alphabet l2 a
          | Option.none => Option.none := by
  intro l1
  induction l1 with
  | nil => intro l2 acc; rfl
  | cons c rest ih =>
    intro l2 acc
    rw [List.cons_append, fromBase, fromBase]
    cases digitIndex alphabet c with
    | none => rfl
    | some i => exact ih l2 _

/-- Decoding the most-significant-first digits of `n` by Horner evaluation
starting from `acc` yields `acc` shifted past those digits, plus `n`. -/
theorem fromBase_digitsLSD_reverse (alphabet : List Char) (hnd : alphabet.Nodup)
    (h2 : 2 ≤ alphabet.length) :
    ∀ (n : Nat) (acc : Nat),
      fromBase alphabet (digitsLSD alphabet n).reverse acc
        = some (acc * alphabet.length ^ (digitsLSD alphabet n).length + n) := by
  intro n
  induction n using Nat.strong_induction_on with
  | _ n ih =>
    intro acc
    by_cases hn0 : n = 0
    · subst hn0
      rw [digitsLSD, dif_pos (Or.inl rfl)]
      simp [fromBase]
    · have hd : digitsLSD alphabet n
          = alphabet.get ⟨n % alphabet.length, Nat.mod_lt _ (by omega)⟩ ::
            digitsLSD alphabet (n / alphabet.length) := by
        rw [digitsLSD, dif_neg (by omega)]
      have hsingle : ∀ (A : Nat),
          fromBase alphabet
            [alphabet.get ⟨n % alphabet.length, Nat.mod_lt _ (by omega)⟩] A
            = some (A * alphabet.length + n % alphabet.length) := by
        intro A
        have h1 : fromBase alphabet
            [alphabet.get ⟨n % alphabet.length, Nat.mod_lt _ (by omega)⟩] A
            = match digitIndex alphabet
                (alphabet.get ⟨n % alphabet.length, Nat.mod_lt _ (by omega)⟩) with
              | Option.none => Option.none
              | some i => fromBase alphabet [] (A * alphabet.length + i) := rfl
        rw [h1, digitIndex_get alphabet hnd ⟨n % alphabet.length, Nat.mod_lt _ (by omega)⟩]
        rfl
      rw [hd]
      rw [List.reverse_cons, fromBase_append]
      have hdiv : n / alphabet.length < n := Nat.div_lt_self (by omega) (by omega)
      rw [ih (n / alphabet.length) hdiv acc]
      refine Eq.trans (hsingle _) ?_
      congr 1
      have hmod : n / alphabet.length * alphabet.length + n % alphabet.length = n :=
        Nat.div_add_mod' n alphabet.length
      simp only [List.length_cons, pow_succ]
      have hexp : (acc * alphabet.length ^ (digitsLSD alphabet (n / alphabet.length)).length
            + n / alphabet.length) * alphabet.length + n % alphabet.length
          = acc * (alphabet.length ^ (digitsLSD alphabet (n / alphabet.length)).length
              * alphabet.length)
            + (n / alphabet.length * alphabet.length + n % alphabet.length) := by ring
      rw [hexp, hmod]

-- ### Claim theorems

/-- Claim C4 (amended): for every integer `n ≥ 1` and every duplicate-free
alphabet of size at least 2, decoding the base-`b` numeral `to_base`
produces recovers `n`; `to_base(0, alphabet)`, however, is the literal
single-character string `"0"` for every alphabet, which equals the
alphabet's first character only when the alphabet begins with `'0'`. -/
theorem to_base_roundtrip_amended (alphabet : List Char) (n fuel : Nat)
    (h1 : 1 ≤ n) (h2 : 2 ≤ alphabet.length) (hnd : alphabet.Nodup) (hf : n ≤ fuel) :
    (∃ s : String, to_base fuel (PyVal.int (Int.ofNat n)) alphabet = some (Except.ok s)
      ∧ fromBase alphabet s.data 0 = some n)
    ∧ (∀ (f : Nat) (alph : List Char), to_base f (PyVal.int 0) alph = some (Except.ok "0")) := by
  constructor
  · refine ⟨String.mk (digitsLSD alphabet n).reverse, ?_, ?_⟩
    · have hneg : ¬ (Int.ofNat n < 0) := not_lt.mpr (Int.ofNat_nonneg n)
      have hzero : ¬ (Int.ofNat n = 0) := by
        show ¬ ((n : Int) = 0)
        omega
      simp only [to_base, if_neg hneg, if_neg hzero]
      have htn : (Int.ofNat n).toNat = n := rfl
      rw [htn, toBaseLoop_eq_digitsLSD alphabet h2 fuel n [] hf]
      simp [Except.map]
    · have hdata : (String.mk (digitsLSD alphabet n).reverse).data
          = (digitsLSD alphabet n).reverse := rfl
      rw [hdata, fromBase_digitsLSD_reverse alphabet hnd h2 n 0]
      simp
  · intro f alph
    rfl

/-- Witness for C4: `to_base(5, "ab")` encodes to `"bab"` and decodes back
to 5. -/
theorem to_base_roundtrip_amended_witness :
    (∃ s : String, to_base 5 (PyVal.int (Int.ofNat 5)) ['a', 'b'] = some (Except.ok s)
      ∧ fromBase ['a', 'b'] s.data 0 = some 5)
    ∧ to_base 5 (PyVal.int (Int.ofNat 5)) ['a', 'b'] = some (Except.ok "bab") :=
  ⟨(to_base_roundtrip_amended ['a', 'b'] 5 5 (by decide) (by decide) (by decide)
      (by decide)).1, rfl⟩

/-- Counterexample for C4 as stated: over the alphabet `"ab"` (size 2),
`to_base(0)` is `"0"`, which is not the alphabet's first character `'a'`. -/
theorem to_base_zero_counterexample :
    to_base 1 (PyVal.int 0) ['a', 'b'] = some (Except.ok "0")
    ∧ ("0" : String) ≠ String.mk [List.headD ['a', 'b'] 'a'] := by
  exact ⟨rfl, by decide⟩

/-- Claim C9: `to_base` rejects a negative integer with `ValueError` and any
non-integer value with `TypeError`, in every case before running the digit
loop (the result does not depend on the fuel or the alphabet), and the
error is returned to the caller uncaught. -/
theorem to_base_rejects_invalid_argument :
    (∀ (fuel : Nat) (alphabet : List Char) (n : Int), n < 0 →
      to_base fuel (PyVal.int n) alphabet
        = some (Except.error (PyErr.valueError "number must be nonnegative")))
    ∧ (∀ (fuel : Nat) (alphabet : List Char) (s : String),
      to_base fuel (PyVal.str s) alphabet
        = some (Except.error (PyErr.typeError "number must be an integer")))
    ∧ (∀ (fuel : Nat) (alphabet : List Char),
      to_base fuel PyVal.noneV alphabet
        = some (Except.error (PyErr.typeError "number must be an integer")))
    ∧ (∀ (fuel : Nat) (alphabet : List Char) (d : List (String × PyVal)),
      to_base fuel (PyVal.dict d) alphabet
        = some (Except.error (PyErr.typeError "number must be an integer"))) := by
  refine ⟨?_, fun _ _ _ => rfl, fun _ _ => rfl, fun _ _ _ => rfl⟩
  intro fuel alphabet n hn
  simp only [to_base, if_pos hn]

/-- Witness for C9 at `-1` and at the string `"foo"`. -/
theorem to_base_rejects_invalid_argument_witness :
    to_base 3 (PyVal.int (-1)) ['a', 'b']
      = some (Except.error (PyErr.valueError "number must be nonnegative"))
    ∧ to_base 3 (PyVal.str "foo") ['a', 'b']
      = some (Except.error (PyErr.typeError "number must be an integer")) :=
  ⟨to_base_rejects_invalid_argument.1 3 ['a', 'b'] (-1) (by decide),
    to_base_rejects_invalid_argument.2.1 3 ['a', 'b'] "foo"⟩

/-- Claim C10: for `n ≥ 0` and an alphabet of size at least 2, the `to_base`
loop finishes within `n` iterations (fuel at least the number suffices), so
the encoder is total under that precondition; with a one-character alphabet
the quotient never decreases, so for `n ≥ 1` no finite fuel ever suffices. -/
theorem to_base_terminates_iff_base_ge_two :
    (∀ (alphabet : List Char) (n : Int) (fuel : Nat), 0 ≤ n → 2 ≤ alphabet.length →
      n.toNat ≤ fuel → (to_base fuel (PyVal.int n) alphabet).isSome = true)
    ∧ (∀ (c : Char) (n fuel : Nat), 1 ≤ n →
      to_base fuel (PyVal.int (Int.ofNat n)) [c] = Option.none) := by
  constructor
  · intro alphabet n fuel h0 h2 hf
    by_cases hneg : n < 0
    · omega
    · by_cases hz : n = 0
      · subst hz
        rfl
      · simp only [to_base, if_neg hneg, if_neg hz]
        rw [toBaseLoop_eq_digitsLSD alphabet h2 fuel n.toNat [] hf]
        rfl
  · intro c n fuel hn
    have hneg : ¬ (Int.ofNat n < 0) := not_lt.mpr (Int.ofNat_nonneg n)
    have hz : ¬ (Int.ofNat n = 0) := by
      show ¬ ((n : Int) = 0)
      omega
    simp only [to_base, if_neg hneg, if_neg hz]
    have htn : (Int.ofNat n).toNat = n := rfl
    rw [htn, toBaseLoop_singleton_diverges c fuel n [] hn]
    rfl

/-- Witness for C10: fuel 3 suffices for `n = 3` over a 2-character
alphabet, while over a 1-character alphabet `n = 1` exhausts any fuel. -/
theorem to_base_terminates_iff_base_ge_two_witness :
    (to_base 3 (PyVal.int 3) ['a', 'b']).isSome = true
    ∧ to_base 7 (PyVal.int (Int.ofNat 1)) ['a'] = Option.none :=
  ⟨to_base_terminates_iff_base_ge_two.1 ['a', 'b'] 3 3 (by decide) (by decide) (by decide),
    to_base_terminates_iff_base_ge_two.2 'a' 1 7 (by decide)⟩

/-- Claim C5: `safemerge` grows the target by one entry per non-skipped
source key (so the final size is at least the pre-call size plus their
number), never overwrites a pre-existing target entry, never writes to a
reserved key, and drops no non-skipped source value: each one is found
under its key extended with trailing underscores. -/
theorem safemerge_never_overwrites {V : Type} (target input : Dict V)
    (reserved skip : Option (List String)) :
    target.length + (input.filter (fun kv => !skipContains skip kv.1)).length
        ≤ (safemerge target input reserved skip).length
    ∧ (∀ k, dcontains target k = true →
        dlookup (safemerge target input reserved skip) k = dlookup target k)
    ∧ (∀ k, k ∈ reservedPool reserved →
        dlookup (safemerge target input reserved skip) k = dlookup target k)
    ∧ (∀ kv, kv ∈ input → skipContains skip kv.1 = false →
        ∃ m, dlookup (safemerge target input reserved skip) (appendUnderscores kv.1 m)
            = some kv.2) := by
  refine ⟨?_, ?_, ?_, ?_⟩
  · rw [length_safemerge]
  · intro k hk
    exact dlookup_safemerge_of_contains input target reserved skip k hk
  · intro k hk
    exact dlookup_safemerge_of_reserved input target reserved skip k hk
  · intro kv hm hs
    obtain ⟨m, hlook, _⟩ := dlookup_safemerge_of_mem input target reserved skip kv hm hs
    exact ⟨m, hlook⟩

/-- Witness for C5: the spec's own example, merging `{"x": 2}` into
`{"x": 1}`. -/
theorem safemerge_never_overwrites_witness :
    safemerge [("x", (1 : Nat))] [("x", 2)] Option.none Option.none = [("x", 1), ("x_", 2)]
    ∧ dlookup (safemerge [("x", (1 : Nat))] [("x", 2)] Option.none Option.none) "x" = some 1
    ∧ (∃ m, dlookup (safemerge [("x", (1 : Nat))] [("x", 2)] Option.none Option.none)
        (appendUnderscores "x" m) = some 2) :=
  ⟨rfl,
    (safemerge_never_overwrites [("x", (1 : Nat))] [("x", 2)] Option.none Option.none).2.1
      "x" (by decide),
    (safemerge_never_overwrites [("x", (1 : Nat))] [("x", 2)] Option.none Option.none).2.2.2
      ("x", 2) (by decide) rfl⟩

/-- Claim C2 (amended): when the environment-derived mapping and the Scoped
Context Store both bind the same key, the final context block keeps the
environment-supplied value under that key — the store, merged second
through `safemerge`, loses on conflict and its value is added under the key
extended with at least one trailing underscore. -/
theorem context_env_value_wins {V : Type} (environ store : Dict V)
    (cfe : List (String × String)) (k : String) (v w : V)
    (hv : dlookup (environContext environ cfe) k = some v)
    (hw : (k, w) ∈ store) :
    ∃ ctx, build_context (some environ) (some cfe) store = Except.ok ctx
      ∧ dlookup ctx k = some v
      ∧ ∃ m, 1 ≤ m ∧ dlookup ctx (appendUnderscores k m) = some w := by
  have hc : dcontains (environContext environ cfe) k = true := by
    rw [dcontains, hv]
    rfl
  refine ⟨safemerge (environContext environ cfe) store Option.none Option.none, rfl, ?_, ?_⟩
  · rw [dlookup_safemerge_of_contains store _ Option.none Option.none k hc, hv]
  · obtain ⟨m, hlook, hm1⟩ := dlookup_safemerge_of_mem store (environContext environ cfe)
      Option.none Option.none (k, w) hw rfl
    exact ⟨m, hm1 hc, hlook⟩

/-- Witness for C2: a `rid` supplied both by the request environment and by
the context store. -/
theorem context_env_value_wins_witness :
    ∃ ctx, build_context (some [("LOG_REQUEST_ID", "env")]) (some [("rid", "LOG_REQUEST_ID")])
        [("rid", "store")] = Except.ok ctx
      ∧ dlookup ctx "rid" = some "env"
      ∧ ∃ m, 1 ≤ m ∧ dlookup ctx (appendUnderscores "rid" m) = some "store" :=
  context_env_value_wins [("LOG_REQUEST_ID", "env")] [("rid", "store")]
    [("rid", "LOG_REQUEST_ID")] "rid" "env" "store" rfl (by decide)

/-- Counterexample for C2 as stated: with the environment supplying
`rid = "env"` and the store holding `rid = "store"`, the final context
block maps `"rid"` to `"env"`, not to the store's value. -/
theorem context_store_wins_counterexample :
    build_context (some [("LOG_REQUEST_ID", "env")]) (some [("rid", "LOG_REQUEST_ID")])
        [("rid", "store")]
      = Except.ok [("rid", "env"), ("rid_", "store")]
    ∧ dlookup [("rid", "env"), ("rid_", "store")] "rid" ≠ some "store" :=
  ⟨rfl, by decide⟩

/-- Claim C1 (amended): once `format_obj` has assembled the record object,
`format` always returns a string: a `json_dumps` failure is recovered by
the `"(error encoding: %r) %r"` fallback, and a failure of that fallback's
`repr` of the object by the minimal `"(error encoding: %r)"` string (which
carries the error the fallback itself raised).  When `format_obj` raises —
it runs outside the `try`, e.g. with an environment supplier configured but
no `context_from_environ` mapping, or a message whose rendering raises —
the exception propagates out of `format`. -/
theorem format_total_after_assembly (fmt : JsonLogFormatter) (record : LogRecord)
    (store_items : Dict PyVal) (repr_obj : Dict PyVal → Except PyErr String)
    (record_obj : Dict PyVal)
    (h : format_obj fmt record store_items = Except.ok record_obj) :
    (∃ s, format fmt record store_items repr_obj = Except.ok s)
    ∧ (∀ e, fmt.json_dumps record_obj = Except.error e →
        (∀ rs, repr_obj record_obj = Except.ok rs →
          format fmt record store_items repr_obj
            = Except.ok (fmt.prefix_str
                ++ ("(error encoding: " ++ PyErr.reprStr e ++ ") " ++ rs)))
        ∧ (∀ e2, repr_obj record_obj = Except.error e2 →
          format fmt record store_items repr_obj
            = Except.ok (fmt.prefix_str
                ++ ("(error encoding: " ++ PyErr.reprStr e2 ++ ")")))) := by
  have hf : format fmt record store_items repr_obj
      = Except.ok (fmt.prefix_str ++
          match fmt.json_dumps record_obj with
          | Except.ok s => s
          | Except.error e =>
            match repr_obj record_obj with
            | Except.ok r => "(error encoding: " ++ PyErr.reprStr e ++ ") " ++ r
            | Except.error e2 => "(error encoding: " ++ PyErr.reprStr e2 ++ ")") := by
    rw [format, h]
  refine ⟨⟨_, hf⟩, ?_⟩
  intro e he
  constructor
  · intro rs hrs
    rw [hf, he, hrs]
  · intro e2 he2
    rw [hf, he, he2]

/-- Witness for C1: a serializer that always raises, and a record whose
assembly succeeds, end in the first fallback string. -/
theorem format_total_after_assembly_witness :
    format fmtW recW [] reprOkW = Except.ok "p:(error encoding: Exception(boom)) OBJ" :=
  ((format_total_after_assembly fmtW recW [] reprOkW objW rfl).2
    (PyErr.custom "boom") rfl).1 "OBJ" rfl

/-- Counterexample for C1 as stated: with an environment supplier configured
but `context_from_environ` left `None`, assembly raises `AttributeError`
inside `format_obj`, which runs outside the `try` of `format`, so `format`
itself raises instead of returning a string. -/
theorem format_raises_on_assembly_error :
    format fmtCE recW [] reprOkW
      = Except.error (PyErr.attributeError "NoneType object has no attribute items") := rfl

/-- Claim C3 (code bug): `with_log_context` restores the overridden keys on
normal exit, but its generator has no `try`/`finally`, so when the
protected block raises, the restoration loop after the `yield` is skipped
and the override leaks: starting from an empty store, a scope setting
`rid = 1` whose body raises leaves `rid = 1` in the store, while the same
scope with a normally-completing body restores the store to empty. -/
theorem with_log_context_leaks_on_exception :
    with_log_context [("rid", (1 : Nat))] (fun it => (it, some "ValueError")) ([] : Dict Nat)
      = ([("rid", 1)], some "ValueError")
    ∧ with_log_context [("rid", (1 : Nat))] (fun it => (it, (Option.none : Option String)))
        ([] : Dict Nat)
      = ([], Option.none) :=
  ⟨rfl, rfl⟩

/-- `List.getD` after `List.set` at an in-bounds index reads the new value. -/
theorem list_getD_set_self {α : Type} (l : List α) (r : Nat) (a dflt : α)
    (h : r < l.length) : (l.set r a).getD r dflt = a := by
  induction l generalizing r with
  | nil => simp at h
  | cons b t ih =>
    cases r with
    | zero => rfl
    | succ r' =>
      have h' : r' < t.length := by simpa using h
      show (t.set r' a).getD r' dflt = a
      exact ih r' h'

/-- Claim C6 (amended): `get_log_context` returns the store's live internal
`_items` dict itself — the very same reference — not a copy, so a
subsequent `set` on the store is visible through the mapping the caller
received. -/
theorem get_log_context_returns_alias {V : Type} (heap : PyDictHeap V) (r : Nat)
    (k : String) (v : V) (hr : r < heap.cells.length) :
    GlobalLogContext.get_log_context heap r = r
    ∧ PyDictHeap.read (GlobalLogContext.set heap r k v)
        (GlobalLogContext.get_log_context heap r)
      = dinsert (PyDictHeap.read heap r) k v := by
  refine ⟨rfl, ?_⟩
  show PyDictHeap.read (PyDictHeap.write heap r (dinsert (PyDictHeap.read heap r) k v)) r
      = dinsert (PyDictHeap.read heap r) k v
  show (heap.cells.set r (dinsert (PyDictHeap.read heap r) k v)).getD r []
      = dinsert (PyDictHeap.read heap r) k v
  exact list_getD_set_self heap.cells r _ [] hr

/-- Witness for C6 on a one-cell heap holding an empty store. -/
theorem get_log_context_returns_alias_witness :
    GlobalLogContext.get_log_context (⟨[[]]⟩ : PyDictHeap Nat) 0 = 0
    ∧ PyDictHeap.read (GlobalLogContext.set (⟨[[]]⟩ : PyDictHeap Nat) 0 "k" 1)
        (GlobalLogContext.get_log_context (⟨[[]]⟩ : PyDictHeap Nat) 0)
      = dinsert (PyDictHeap.read (⟨[[]]⟩ : PyDictHeap Nat) 0) "k" 1 :=
  get_log_context_returns_alias ⟨[[]]⟩ 0 "k" 1 (by decide)

/-- Counterexample for C6 as stated: after `set("k", 1)` on the store, the
mapping obtained earlier from `get_log_context` no longer shows its
snapshot-time contents — it changed along with the store. -/
theorem get_log_context_copy_counterexample :
    PyDictHeap.read (GlobalLogContext.set (⟨[[]]⟩ : PyDictHeap Nat) 0 "k" 1)
        (GlobalLogContext.get_log_context (⟨[[]]⟩ : PyDictHeap Nat) 0)
      ≠ PyDictHeap.read (⟨[[]]⟩ : PyDictHeap Nat)
        (GlobalLogContext.get_log_context (⟨[[]]⟩ : PyDictHeap Nat) 0) := by
  decide

/-- Claim C7: after any sequence of successful reads the byte counter has
grown by exactly the sum of the lengths of the returned buffers, and a
failing underlying read propagates its error unchanged while leaving the
byte counter untouched (only the timestamps are updated, as in the
source). -/
theorem read_byte_count_accumulates :
    (∀ (w : ReadTimingStreamWrapper) (calls : List (Nat × List Nat)),
      (readManyOk w calls).read_byte_count
        = w.read_byte_count + (calls.map (fun c => c.2.length)).sum)
    ∧ (∀ (w : ReadTimingStreamWrapper) (now : Nat) (e : String),
      ReadTimingStreamWrapper.read w now (Except.error e)
        = Except.error (e, { w with
            first_read_time := some (match w.first_read_time with
              | some t => t
              | Option.none => now),
            last_read_time := some now })) := by
  constructor
  · intro w calls
    induction calls generalizing w with
    | nil => simp [readManyOk]
    | cons c rest ih =>
      have hstep : readManyOk w (c :: rest)
          = readManyOk { w with
              first_read_time := some (match w.first_read_time with
                | some t => t
                | Option.none => c.1),
              last_read_time := some c.1,
              read_byte_count := w.read_byte_count + c.2.length } rest := rfl
      rw [hstep, ih]
      simp
      omega
  · intro w now e
    rfl

/-- Claim C8: whatever the exclusion set, the draw sequence and the fuel,
when `mk_random_id` returns an identifier it is not a member of the
exclusion set. -/
theorem mk_random_id_avoids_excluded (fuel : Nat) (draws : List (Nat × Nat))
    (ex : List String) (r : String)
    (h : mk_random_id fuel draws (some ex) = some (Except.ok r)) : r ∉ ex := by
  induction draws with
  | nil => simp [mk_random_id] at h
  | cons d rest ih =>
    obtain ⟨t, rb⟩ := d
    rw [mk_random_id] at h
    split at h
    · rename_i res heq
      replace h : (if res ∈ ex then mk_random_id fuel rest (some ex)
          else some (Except.ok res)) = some (Except.ok r) := h
      by_cases hmem : res ∈ ex
      · rw [if_pos hmem] at h
        exact ih h
      · rw [if_neg hmem] at h
        have hres : res = r := by simpa using h
        subst hres
        exact hmem
    · simp at h
    · simp at h

/-- Witness for C8: with curtime 0 and random bits 0 the generated id is
`"0"`, which is indeed outside the exclusion set. -/
theorem mk_random_id_avoids_excluded_witness :
    mk_random_id 1 [(0, 0)] (some ["zzz"]) = some (Except.ok "0")
    ∧ "0" ∉ ["zzz"] :=
  ⟨rfl, mk_random_id_avoids_excluded 1 [(0, 0)] ["zzz"] "0" rfl⟩
